import Mathlib

/-!
Verification of the gaming-data-observatory aggregation pipeline.

The repository's dashboard pages (`src/ranking.md`, `src/index.md`, the
unnamed ranking page and the SQL schema) are embedded directly.  The
Python rollup engine (`update_rollups`), retention manager (`prune`) and
the failure-handling wrapper are not present in the repository snapshot;
they are modelled from the specification's words, as marked on each
definition.
-/

/-- Modelled from the spec: a RawSample row of the Raw Sample Store,
`{source, game_id, captured_at, metric value}` (spec 3).  Sources and game
ids are numeric codes, timestamps are epoch seconds, metric values are
exact rationals. -/
structure RawSample where
  source : Nat
  game_id : Nat
  captured_at : Nat
  value : ℚ
deriving DecidableEq

/-- Modelled from the spec: one stored rollup value,
`{avg_metric, peak_metric, sample_count}` (spec 3). -/
structure Agg where
  avg_metric : ℚ
  peak_metric : ℚ
  sample_count : Nat
deriving DecidableEq

/-- Modelled from the spec: the key of the rollup store,
`(source, game_id, bucket_start)` for a fixed granularity (spec 9). -/
structure BucketKey where
  source : Nat
  game_id : Nat
  bucket_start : Nat
deriving DecidableEq

/-- Start of the bucket of length `L` seconds containing time `t`
(hour-, day- or week-aligned depending on `L`). -/
def bucketFloor (L t : Nat) : Nat := t / L * L

/-- Modelled from the spec: a bucket is finalized once its end boundary is
strictly before the bucket start of `as_of_timestamp`, e.g. a day is
finalized once `as_of` has moved to the next day (spec 4.1). -/
def finalizedAt (L b asOf : Nat) : Prop := b + L ≤ bucketFloor L asOf

instance (L b asOf : Nat) : Decidable (finalizedAt L b asOf) := by
  unfold finalizedAt; infer_instance

/-- The bucket key a raw sample falls into at granularity `L`. -/
def keyOfSample (L : Nat) (s : RawSample) : BucketKey :=
  ⟨s.source, s.game_id, bucketFloor L s.captured_at⟩

/-- Metric values of the raw samples falling into bucket `k` at
granularity `L`. -/
def bucketValues (L : Nat) (raw : List RawSample) (k : BucketKey) : List ℚ :=
  (raw.filter (fun s => decide (keyOfSample L s = k))).map RawSample.value

/-- Maximum of a list of metric values (`0` on an empty list, which the
engine never aggregates: zero-sample buckets are sparse). -/
def peakOf : List ℚ → ℚ
  | [] => 0
  | v :: t => t.foldl max v

/-- Modelled from the spec: recompute `avg_metric = mean`,
`peak_metric = max`, `sample_count = count` of a bucket's values
(spec 4.1). -/
def aggOfValues (vs : List ℚ) : Agg :=
  ⟨vs.sum / (vs.length : ℚ), peakOf vs, vs.length⟩

/-- Modelled from the spec: the keys of the buckets written by a run:
buckets that contain at least one raw sample (sparse writes) and are not
yet finalized at `as_of_timestamp` (spec 4.1). -/
def activeKeys (L : Nat) (raw : List RawSample) (asOf : Nat) : List BucketKey :=
  ((raw.map (keyOfSample L)).dedup).filter
    (fun k => decide (¬ finalizedAt L k.bucket_start asOf))

/-- Modelled from the spec: the rollup records computed by one run of the
engine for granularity `L` (spec 4.1). -/
def computeRollups (L : Nat) (raw : List RawSample) (asOf : Nat) :
    List (BucketKey × Agg) :=
  (activeKeys L raw asOf).map (fun k => (k, aggOfValues (bucketValues L raw k)))

/-- The rollup store: an ordered association list keyed by `BucketKey`
(spec 9: explicit key-value store with upsert as the only mutation). -/
abbrev RollupStore := List (BucketKey × Agg)

/-- Lookup of a bucket's stored rollup. -/
def lookupB (k : BucketKey) : RollupStore → Option Agg
  | [] => none
  | (q, v) :: t => if q = k then some v else lookupB k t

/-- Modelled from the spec: upsert, the only mutation primitive of the
rollup store — a non-finalized bucket is fully overwritten, never
incremented in place (spec 4.1, 9). -/
def upsertB (k : BucketKey) (v : Agg) : RollupStore → RollupStore
  | [] => [(k, v)]
  | (q, w) :: t => if q = k then (k, v) :: t else (q, w) :: upsertB k v t

/-- Modelled from the spec: `update_rollups` for one granularity —
recomputes every active bucket from the raw samples and upserts the
results into the store (spec 4.1). -/
def updateRollups (L : Nat) (store : RollupStore) (raw : List RawSample)
    (asOf : Nat) : RollupStore :=
  (computeRollups L raw asOf).foldl (fun st kv => upsertB kv.1 kv.2 st) store

/-- Export-side rounding of a metric to two decimals, as the spec's
example values (`avg=123.33`) display them. -/
def roundCenti (q : ℚ) : ℤ := ⌊q * 100 + 1 / 2⌋

/-- Concrete raw samples of the spec's end-to-end scenario: three hourly
samples for `game_id = 730`, `source = steam` (code `0`), values
`[100, 150, 120]` inside one hour bucket. -/
def scenarioRaw : List RawSample :=
  [⟨0, 730, 100, (100 : ℚ)⟩, ⟨0, 730, 200, (150 : ℚ)⟩, ⟨0, 730, 300, (120 : ℚ)⟩]

/-- Modelled from the spec: the raw retention horizon, 7 days (spec 4.2
and 6; the repository's `about.md` pipeline notes state the same 7-day
cleanup). -/
def rawRetentionSeconds : Nat := 7 * 86400

/-- Modelled from the spec: `prune(as_of_timestamp)` deletes the RawSample
rows whose `captured_at` is older than `as_of` minus 7 days and keeps the
rest (spec 4.2). -/
def pruneRaw (raw : List RawSample) (asOf : Nat) : List RawSample :=
  raw.filter (fun s => decide (¬ s.captured_at + rawRetentionSeconds < asOf))

/-- Modelled from the spec: `update_rollups` with fallible raw-sample
retrieval — if retrieval fails the whole update aborts and the error is
surfaced; otherwise the rollups are recomputed and upserted (spec 4.1). -/
def updateRollupsChecked (L : Nat) (store : RollupStore)
    (fetched : Except String (List RawSample)) (asOf : Nat) :
    Except String RollupStore :=
  match fetched with
  | .error e => .error e
  | .ok raw => .ok (updateRollups L store raw asOf)

/-- Modelled from the spec: the stored state visible after an invocation —
the new store on success, the untouched previous store on an aborted run
(no partial writes, spec 4.1). -/
def storeAfterRun (store : RollupStore) (res : Except String RollupStore) :
    RollupStore :=
  match res with
  | .error _ => store
  | .ok st => st

/-- A row of the ranking page's aggregated game list (`src/ranking.md`):
its canonical (IGDB) identifier and the selected metric field, which the
page reads as `a[selectedMetric] || 0`. -/
structure SGame where
  igdb_id : Nat
  metric : Option ℚ
deriving DecidableEq

/-- From `src/ranking.md` `sortedGames`: the comparator value
`a[selectedMetric] || 0` — a missing metric counts as `0`. -/
def sortVal (g : SGame) : ℚ := g.metric.getD 0

/-- One step of the stable descending sort: insert `g` before the first
element whose value is not above `sortVal g`. -/
def insertGameDesc (g : SGame) : List SGame → List SGame
  | [] => [g]
  | h :: t => if sortVal h ≤ sortVal g then g :: h :: t else h :: insertGameDesc g t

/-- From `src/ranking.md` `sortedGames` (and the unnamed ranking page's
`sortedGames`): `[...filteredGames].sort((a, b) => bValue - aValue)`,
ES2019 `Array.prototype.sort` being stable — the unique stable descending
ordering by comparator value. -/
def sortedGames (l : List SGame) : List SGame := l.foldr insertGameDesc []

/-- A unified-rankings row as read by the unnamed ranking page: platform
ids and the per-source average/all-time peak metrics, each possibly
absent. -/
structure UnifiedGame where
  steam_app_id : Option Nat
  igdb_id : Option Nat
  game_name : String
  avg_peak_ccu : Option ℚ
  all_time_peak_ccu : Option ℚ
  avg_peak_viewers : Option ℚ
  all_time_peak_viewers : Option ℚ
deriving DecidableEq

/-- The metrics of the result of `getGameDisplayInfo`. -/
structure DisplayInfo where
  avgMetric : ℚ
  peakMetric : ℚ
deriving DecidableEq

/-- From `getGameDisplayInfo` (unnamed ranking page), unified branch:
`avgMetric = (game.avg_peak_ccu || 0) + (game.avg_peak_viewers || 0)` and
`peakMetric = (game.all_time_peak_ccu || 0) +
(game.all_time_peak_viewers || 0)`. -/
def unifiedDisplayInfo (g : UnifiedGame) : DisplayInfo :=
  ⟨g.avg_peak_ccu.getD 0 + g.avg_peak_viewers.getD 0,
   g.all_time_peak_ccu.getD 0 + g.all_time_peak_viewers.getD 0⟩

/-- A `game-metadata.json` entry as read by `src/ranking.md`: the IGDB id,
the cover URL and the tag lists (genres, themes). -/
structure GameMeta where
  igdb_id : Nat
  cover_url : Option String
  genres : List String
  themes : List String
deriving DecidableEq

/-- A game row as it reaches the cover helper and the tag filter of
`src/ranking.md`: only its (possibly absent) IGDB id matters there. -/
structure AggGame where
  igdb_id : Option Nat
deriving DecidableEq

/-- From `src/ranking.md`:
`gameMetadata.find(m => m.igdb_id === game.igdb_id)`. -/
def metadataFor (gameMetadata : List GameMeta) (g : AggGame) : Option GameMeta :=
  gameMetadata.find? (fun m => decide (some m.igdb_id = g.igdb_id))

/-- From `src/ranking.md` `getGameCover`:
`metadata?.cover_url || null`. -/
def getGameCover (gameMetadata : List GameMeta) (g : AggGame) : Option String :=
  match metadataFor gameMetadata g with
  | none => none
  | some m => m.cover_url

/-- From `src/ranking.md` `filteredGames`: with tag selection "All" every
game is kept; otherwise a game with no metadata entry is kept
(`if (!metadata) return true`), and a game with metadata is kept when the
selected tag is among its genres or themes. -/
def keepGameForTag (gameMetadata : List GameMeta) (selectedTag : Option String)
    (g : AggGame) : Bool :=
  match selectedTag with
  | none => true
  | some tag =>
    match metadataFor gameMetadata g with
    | none => true
    | some m => decide (tag ∈ m.genres ++ m.themes)

/-- A time-series KPI record as consumed by `aggregateData` in
`src/ranking.md`: the three platform ids it resolves a game id from, and
the selected metric field's value (absent models JS null/undefined). -/
structure TSRecord where
  igdb_id : Option Nat
  steam_app_id : Option Nat
  twitch_game_id : Option Nat
  metric : Option ℚ
deriving DecidableEq

/-- From `aggregateData`:
`record.igdb_id || record.steam_app_id || record.twitch_game_id`. -/
def recordGameId (r : TSRecord) : Option Nat :=
  match r.igdb_id with
  | some i => some i
  | none =>
    match r.steam_app_id with
    | some i => some i
    | none => r.twitch_game_id

/-- From the guard of `aggregateData`,
`if (value == null || value <= 0) return`: the record's contribution —
its value when strictly positive, nothing otherwise. -/
def posValue (r : TSRecord) : Option ℚ :=
  match r.metric with
  | none => none
  | some v => if 0 < v then some v else none

/-- Append value `v` to game `k`'s group, creating the group at the end on
first sight (the JS `Map` preserves insertion order). -/
def pushValue (k : Option Nat) (v : ℚ) :
    List (Option Nat × List ℚ) → List (Option Nat × List ℚ)
  | [] => [(k, [v])]
  | (q, vs) :: t =>
    if q = k then (q, vs ++ [v]) :: t else (q, vs) :: pushValue k v t

/-- One `data.forEach` step of `aggregateData`: skip null or non-positive
values, otherwise push the value onto the record's game group. -/
def addRecord (acc : List (Option Nat × List ℚ)) (r : TSRecord) :
    List (Option Nat × List ℚ) :=
  match posValue r with
  | none => acc
  | some v => pushValue (recordGameId r) v acc

/-- The `gameMap` built by the forEach of `aggregateData` over the
data. -/
def groupTS (data : List TSRecord) : List (Option Nat × List ℚ) :=
  data.foldl addRecord []

/-- From `aggregateData` (time-series branch of `src/ranking.md`): group
by game id, then map each game to the average of its collected values and
`sample_count = values.length`. -/
def aggregateData (data : List TSRecord) : List (Option Nat × ℚ × Nat) :=
  (groupTS data).map (fun e => (e.1, (e.2.sum / (e.2.length : ℚ), e.2.length)))

/-- The strictly positive metric values of game `g`'s records, in data
order — the values `aggregateData` is expected to keep. -/
def posValuesOf (g : Option Nat) (data : List TSRecord) : List ℚ :=
  data.filterMap (fun r => if recordGameId r = g then posValue r else none)

/-- Lookup of a game's collected values in the grouped list. -/
def lookupG (g : Option Nat) : List (Option Nat × List ℚ) → Option (List ℚ)
  | [] => none
  | (q, vs) :: t => if q = g then some vs else lookupG g t

/-- Lookup of a game's aggregated (average, sample_count) entry. -/
def lookupAgg (g : Option Nat) : List (Option Nat × ℚ × Nat) → Option (ℚ × Nat)
  | [] => none
  | (q, a) :: t => if q = g then some a else lookupAgg g t

/-- A `game_metadata` row (unified schema DDL): `igdb_id` PRIMARY KEY,
nullable platform ids with `UNIQUE(steam_app_id)` and
`UNIQUE(twitch_game_id)`. -/
structure GMRow where
  igdb_id : Nat
  game_name : String
  steam_app_id : Option Int
  twitch_game_id : Option String
deriving DecidableEq

/-- The pairwise content of the `game_metadata` constraints: distinct
primary keys, and SQL `UNIQUE` forbidding two rows sharing a non-NULL
`steam_app_id` or `twitch_game_id` (NULLs are exempt). -/
def gmRowsCompatible (r1 r2 : GMRow) : Prop :=
  r1.igdb_id ≠ r2.igdb_id ∧
  (r1.steam_app_id.isSome = true → r1.steam_app_id ≠ r2.steam_app_id) ∧
  (r1.twitch_game_id.isSome = true → r1.twitch_game_id ≠ r2.twitch_game_id)

instance (r1 r2 : GMRow) : Decidable (gmRowsCompatible r1 r2) := by
  unfold gmRowsCompatible
  infer_instance

/-- A valid `game_metadata` table: every pair of rows satisfies the
PRIMARY KEY and UNIQUE constraints of the DDL. -/
def gmConstraints (t : List GMRow) : Prop := t.Pairwise gmRowsCompatible

instance (t : List GMRow) : Decidable (gmConstraints t) := by
  unfold gmConstraints
  exact List.instDecidablePairwise t

/-- A `game_external_ids` row (unified schema DDL): surrogate PRIMARY KEY
`id`, the owning `igdb_id`, and `UNIQUE(platform_name, platform_uid)`. -/
structure ExtIdRow where
  id : Nat
  igdb_id : Nat
  platform_name : String
  platform_uid : String
deriving DecidableEq

/-- The pairwise content of the `game_external_ids` constraints. -/
def extRowsCompatible (r1 r2 : ExtIdRow) : Prop :=
  r1.id ≠ r2.id ∧
  ¬ (r1.platform_name = r2.platform_name ∧ r1.platform_uid = r2.platform_uid)

instance (r1 r2 : ExtIdRow) : Decidable (extRowsCompatible r1 r2) := by
  unfold extRowsCompatible
  infer_instance

/-- A valid `game_external_ids` table. -/
def extIdConstraints (t : List ExtIdRow) : Prop := t.Pairwise extRowsCompatible

instance (t : List ExtIdRow) : Decidable (extIdConstraints t) := by
  unfold extIdConstraints
  exact List.instDecidablePairwise t

theorem lookupB_upsertB_self (k : BucketKey) (v : Agg) (s : RollupStore) :
    lookupB k (upsertB k v s) = some v := by
  induction s with
  | nil => simp [upsertB, lookupB]
  | cons hd t ih =>
    obtain ⟨q, w⟩ := hd
    by_cases hq : q = k
    · simp [upsertB, hq, lookupB]
    · simp [upsertB, hq, lookupB, ih]

theorem lookupB_upsertB_ne (k q : BucketKey) (v : Agg) (s : RollupStore)
    (h : q ≠ k) : lookupB k (upsertB q v s) = lookupB k s := by
  induction s with
  | nil => simp [upsertB, lookupB, h]
  | cons hd t ih =>
    obtain ⟨r, w⟩ := hd
    by_cases hr : r = q
    · subst hr
      simp [upsertB, lookupB, h]
    · by_cases hk : r = k
      · subst hk
        simp [upsertB, hr, lookupB]
      · simp [upsertB, hr, lookupB, hk, ih]

theorem upsertB_lookup_eq (k : BucketKey) (v : Agg) (s : RollupStore)
    (h : lookupB k s = some v) : upsertB k v s = s := by
  induction s with
  | nil => simp [lookupB] at h
  | cons hd t ih =>
    obtain ⟨q, w⟩ := hd
    by_cases hq : q = k
    · subst hq
      simp [lookupB] at h
      simp [upsertB, h]
    · simp [lookupB, hq] at h
      simp [upsertB, hq, ih h]

/-- Folding upserts over records none of whose keys is `k` leaves the
binding of `k` unchanged. -/
theorem lookupB_foldl_not_mem (k : BucketKey) (kvs : List (BucketKey × Agg))
    (s : RollupStore) (h : k ∉ kvs.map Prod.fst) :
    lookupB k (kvs.foldl (fun st kv => upsertB kv.1 kv.2 st) s) = lookupB k s := by
  induction kvs generalizing s with
  | nil => rfl
  | cons hd t ih =>
    simp only [List.map_cons, List.mem_cons] at h
    push_neg at h
    simp only [List.foldl_cons]
    rw [ih _ h.2, lookupB_upsertB_ne _ _ _ _ (Ne.symm h.1)]

theorem lookupB_foldl_mem (k : BucketKey) (v : Agg)
    (kvs : List (BucketKey × Agg)) (s : RollupStore)
    (hnd : (kvs.map Prod.fst).Nodup) (hmem : (k, v) ∈ kvs) :
    lookupB k (kvs.foldl (fun st kv => upsertB kv.1 kv.2 st) s) = some v := by
  induction kvs generalizing s with
  | nil => simp at hmem
  | cons hd t ih =>
    simp only [List.map_cons, List.nodup_cons] at hnd
    rcases List.mem_cons.mp hmem with heq | htail
    · subst heq
      simp only [List.foldl_cons]
      rw [lookupB_foldl_not_mem _ _ _ hnd.1, lookupB_upsertB_self]
    · simp only [List.foldl_cons]
      exact ih _ hnd.2 htail

/-- Folding upserts over records whose bindings already hold in the store
is a no-op. -/
theorem foldl_upsert_fixed (kvs : List (BucketKey × Agg)) (s : RollupStore)
    (h : ∀ kv ∈ kvs, lookupB kv.1 s = some kv.2) :
    kvs.foldl (fun st kv => upsertB kv.1 kv.2 st) s = s := by
  induction kvs with
  | nil => rfl
  | cons hd t ih =>
    have hhd : upsertB hd.1 hd.2 s = s :=
      upsertB_lookup_eq _ _ _ (h hd (List.mem_cons_self _ _))
    simp only [List.foldl_cons, hhd]
    exact ih (fun kv hkv => h kv (List.mem_cons_of_mem _ hkv))

theorem computeRollups_keys (L : Nat) (raw : List RawSample) (asOf : Nat) :
    (computeRollups L raw asOf).map Prod.fst = activeKeys L raw asOf := by
  unfold computeRollups
  rw [List.map_map]
  have hid : (Prod.fst ∘ fun k => (k, aggOfValues (bucketValues L raw k))) = id := rfl
  rw [hid, List.map_id]

theorem activeKeys_nodup (L : Nat) (raw : List RawSample) (asOf : Nat) :
    (activeKeys L raw asOf).Nodup :=
  ((raw.map (keyOfSample L)).nodup_dedup).filter _

theorem bucketFloor_mono (L : Nat) {t u : Nat} (h : t ≤ u) :
    bucketFloor L t ≤ bucketFloor L u :=
  Nat.mul_le_mul_right L (Nat.div_le_div_right h)

theorem finalizedAt_mono (L b : Nat) {t u : Nat} (hf : finalizedAt L b t)
    (h : t ≤ u) : finalizedAt L b u :=
  le_trans hf (bucketFloor_mono L h)

/-- Claim C2 (idempotence): for every granularity, store state, raw-sample
set and `as_of_timestamp`, running `update_rollups` a second time with
identical input leaves the rollup store exactly as after the first
run. -/
theorem update_rollups_idempotent (L : Nat) (s : RollupStore)
    (raw : List RawSample) (asOf : Nat) :
    updateRollups L (updateRollups L s raw asOf) raw asOf =
      updateRollups L s raw asOf := by
  unfold updateRollups
  apply foldl_upsert_fixed
  intro kv hkv
  have hnd : ((computeRollups L raw asOf).map Prod.fst).Nodup := by
    rw [computeRollups_keys]
    exact activeKeys_nodup L raw asOf
  exact lookupB_foldl_mem kv.1 kv.2 _ s hnd (by simpa using hkv)

/-- Claim C3 (finalization monotonicity): once a bucket's end boundary is
before the bucket start of `as_of_timestamp`, no run at any later
`as_of_timestamp` — whatever raw samples it sees, including late arrivals
inside the bucket — changes the bucket's stored rollup. -/
theorem finalized_bucket_immutable (L : Nat) (s : RollupStore)
    (raw : List RawSample) (asOf t : Nat) (k : BucketKey)
    (hfin : finalizedAt L k.bucket_start asOf) (hle : asOf ≤ t) :
    lookupB k (updateRollups L s raw t) = lookupB k s := by
  unfold updateRollups
  apply lookupB_foldl_not_mem
  rw [computeRollups_keys]
  intro hk
  have hmem := List.mem_filter.mp hk
  have : ¬ finalizedAt L k.bucket_start t := by simpa using hmem.2
  exact this (finalizedAt_mono L k.bucket_start hfin hle)

theorem finalized_bucket_immutable_witness :
    finalizedAt 3600 0 7200 ∧ 7200 ≤ 10000 ∧
    lookupB ⟨0, 730, 0⟩
      (updateRollups 3600 [(⟨0, 730, 0⟩, ⟨123, 150, 3⟩)]
        [⟨0, 730, 500, (500 : ℚ)⟩] 10000) = some ⟨123, 150, 3⟩ := by
  refine ⟨by decide, by decide, ?_⟩
  rw [finalized_bucket_immutable 3600 _ _ 7200 10000 ⟨0, 730, 0⟩
    (by decide) (by decide)]
  decide

/-- Claim C1: a bucket with no samples is never written (its stored state
is untouched), and a non-finalized bucket with samples is written with
`avg_metric` the arithmetic mean of its sample values, `peak_metric`
their maximum and `sample_count` their number. -/
theorem rollup_bucket_correct (L : Nat) (s : RollupStore)
    (raw : List RawSample) (asOf : Nat) (k : BucketKey) :
    (bucketValues L raw k = [] →
      lookupB k (updateRollups L s raw asOf) = lookupB k s) ∧
    (bucketValues L raw k ≠ [] → ¬ finalizedAt L k.bucket_start asOf →
      lookupB k (updateRollups L s raw asOf) =
        some ⟨(bucketValues L raw k).sum / ((bucketValues L raw k).length : ℚ),
          peakOf (bucketValues L raw k), (bucketValues L raw k).length⟩) := by
  constructor
  · intro hempty
    unfold updateRollups
    apply lookupB_foldl_not_mem
    rw [computeRollups_keys]
    intro hk
    have hdedup := (List.mem_filter.mp hk).1
    have hmap := List.mem_dedup.mp hdedup
    obtain ⟨smp, hs, hks⟩ := List.mem_map.mp hmap
    have : smp ∈ raw.filter (fun s => decide (keyOfSample L s = k)) :=
      List.mem_filter.mpr ⟨hs, by simpa using hks⟩
    have : smp.value ∈ bucketValues L raw k := List.mem_map_of_mem _ this
    rw [hempty] at this
    simp at this
  · intro hne hnf
    obtain ⟨v, hv⟩ := List.exists_mem_of_ne_nil _ hne
    obtain ⟨smp, hsf, _⟩ := List.mem_map.mp hv
    have hsraw := (List.mem_filter.mp hsf).1
    have hsk : keyOfSample L smp = k := by
      have := (List.mem_filter.mp hsf).2
      simpa using this
    have hkdedup : k ∈ (raw.map (keyOfSample L)).dedup :=
      List.mem_dedup.mpr (List.mem_map.mpr ⟨smp, hsraw, hsk⟩)
    have hkact : k ∈ activeKeys L raw asOf :=
      List.mem_filter.mpr ⟨hkdedup, by simpa using hnf⟩
    have hkc : (k, aggOfValues (bucketValues L raw k)) ∈
        computeRollups L raw asOf :=
      List.mem_map.mpr ⟨k, hkact, rfl⟩
    have hnd : ((computeRollups L raw asOf).map Prod.fst).Nodup := by
      rw [computeRollups_keys]
      exact activeKeys_nodup L raw asOf
    unfold updateRollups
    exact lookupB_foldl_mem _ _ _ _ hnd hkc

theorem rollup_bucket_correct_witness :
    bucketValues 3600 scenarioRaw ⟨0, 730, 0⟩ ≠ [] ∧
    ¬ finalizedAt 3600 0 1800 ∧
    lookupB ⟨0, 730, 0⟩ (updateRollups 3600 [] scenarioRaw 1800) =
      some ⟨370 / 3, 150, 3⟩ ∧
    roundCenti (370 / 3) = 12333 := by
  have hbv : bucketValues 3600 scenarioRaw ⟨0, 730, 0⟩ =
      [(100 : ℚ), 150, 120] := by
    simp [bucketValues, scenarioRaw, keyOfSample, bucketFloor]
  refine ⟨by decide, by decide, ?_, ?_⟩
  · rw [(rollup_bucket_correct 3600 [] scenarioRaw 1800 ⟨0, 730, 0⟩).2
      (by decide) (by decide), hbv]
    norm_num [peakOf, max_def]
  · unfold roundCenti
    rw [show ((370 : ℚ) / 3 * 100 + 1 / 2) = 74003 / 6 by norm_num]
    rw [Int.floor_eq_iff]
    constructor
    · norm_num
    · norm_num

/-- Claim C6: `prune` deletes exactly the raw samples older than
`as_of` minus 7 days; in particular a sample exactly 7 days + 1 second
old is deleted while a sample exactly 6 days 23:59:59 old is
retained. -/
theorem prune_retention_boundary (raw : List RawSample) (asOf : Nat)
    (s : RawSample) :
    (s ∈ pruneRaw raw asOf ↔
      s ∈ raw ∧ asOf ≤ s.captured_at + rawRetentionSeconds) ∧
    (s ∈ raw → s.captured_at + (rawRetentionSeconds + 1) = asOf →
      s ∉ pruneRaw raw asOf) ∧
    (s ∈ raw → s.captured_at + (rawRetentionSeconds - 1) = asOf →
      s ∈ pruneRaw raw asOf) := by
  have hmem : s ∈ pruneRaw raw asOf ↔
      s ∈ raw ∧ asOf ≤ s.captured_at + rawRetentionSeconds := by
    unfold pruneRaw
    rw [List.mem_filter]
    simp [Nat.not_lt]
  refine ⟨hmem, ?_, ?_⟩
  · intro hraw hage hcontra
    have := (hmem.mp hcontra).2
    omega
  · intro hraw hage
    refine hmem.mpr ⟨hraw, ?_⟩
    have : 1 ≤ rawRetentionSeconds := by decide
    omega

theorem prune_retention_boundary_witness :
    (⟨0, 1, 95199, (5 : ℚ)⟩ : RawSample) ∉
      pruneRaw [⟨0, 1, 95199, (5 : ℚ)⟩, ⟨0, 1, 95201, (5 : ℚ)⟩] 700000 ∧
    (⟨0, 1, 95201, (5 : ℚ)⟩ : RawSample) ∈
      pruneRaw [⟨0, 1, 95199, (5 : ℚ)⟩, ⟨0, 1, 95201, (5 : ℚ)⟩] 700000 := by
  constructor
  · exact (prune_retention_boundary
      [⟨0, 1, 95199, (5 : ℚ)⟩, ⟨0, 1, 95201, (5 : ℚ)⟩] 700000
      ⟨0, 1, 95199, (5 : ℚ)⟩).2.1 (by simp) (by decide)
  · exact (prune_retention_boundary
      [⟨0, 1, 95199, (5 : ℚ)⟩, ⟨0, 1, 95201, (5 : ℚ)⟩] 700000
      ⟨0, 1, 95201, (5 : ℚ)⟩).2.2 (by simp) (by decide)

/-- Claim C7: when raw-sample retrieval fails, the update aborts with the
error surfaced to the caller and the stored rollup state after the failed
invocation equals the state before it. -/
theorem failed_fetch_no_partial_writes (L : Nat) (store : RollupStore)
    (fetched : Except String (List RawSample)) (asOf : Nat) (e : String)
    (hfail : fetched = .error e) :
    updateRollupsChecked L store fetched asOf = .error e ∧
    storeAfterRun store (updateRollupsChecked L store fetched asOf) = store := by
  subst hfail
  exact ⟨rfl, rfl⟩

theorem failed_fetch_no_partial_writes_witness :
    updateRollupsChecked 3600 [(⟨0, 730, 0⟩, ⟨123, 150, 3⟩)]
      (Except.error "storage unavailable") 7200 =
        Except.error "storage unavailable" ∧
    storeAfterRun [(⟨0, 730, 0⟩, ⟨123, 150, 3⟩)]
      (updateRollupsChecked 3600 [(⟨0, 730, 0⟩, ⟨123, 150, 3⟩)]
        (Except.error "storage unavailable") 7200) =
      [(⟨0, 730, 0⟩, ⟨123, 150, 3⟩)] :=
  failed_fetch_no_partial_writes 3600 [(⟨0, 730, 0⟩, ⟨123, 150, 3⟩)]
    (Except.error "storage unavailable") 7200 "storage unavailable" rfl

theorem mem_insertGameDesc (g x : SGame) (s : List SGame) :
    x ∈ insertGameDesc g s ↔ x = g ∨ x ∈ s := by
  induction s with
  | nil => simp [insertGameDesc]
  | cons hd t ih =>
    by_cases hle : sortVal hd ≤ sortVal g
    · simp [insertGameDesc, hle]
    · simp only [insertGameDesc, if_neg hle, List.mem_cons, ih]
      tauto

theorem insertGameDesc_perm (g : SGame) (s : List SGame) :
    List.Perm (insertGameDesc g s) (g :: s) := by
  induction s with
  | nil => rfl
  | cons hd t ih =>
    by_cases hle : sortVal hd ≤ sortVal g
    · rw [insertGameDesc, if_pos hle]
    · rw [insertGameDesc, if_neg hle]
      exact List.Perm.trans (List.Perm.cons hd ih) (List.Perm.swap g hd t)

theorem pairwise_insertGameDesc (g : SGame) (s : List SGame)
    (h : s.Pairwise (fun a b => sortVal b ≤ sortVal a)) :
    (insertGameDesc g s).Pairwise (fun a b => sortVal b ≤ sortVal a) := by
  induction s with
  | nil => simp [insertGameDesc]
  | cons hd t ih =>
    rw [List.pairwise_cons] at h
    by_cases hle : sortVal hd ≤ sortVal g
    · rw [insertGameDesc, if_pos hle, List.pairwise_cons]
      refine ⟨?_, List.pairwise_cons.mpr h⟩
      intro x hx
      rcases List.mem_cons.mp hx with rfl | hxt
      · exact hle
      · exact le_trans (h.1 x hxt) hle
    · rw [insertGameDesc, if_neg hle, List.pairwise_cons]
      refine ⟨?_, ih h.2⟩
      intro x hx
      rcases (mem_insertGameDesc g x t).mp hx with rfl | hxt
      · exact le_of_not_le hle
      · exact h.1 x hxt

theorem filter_insertGameDesc (g : SGame) (s : List SGame) (v : ℚ) :
    (insertGameDesc g s).filter (fun x => decide (sortVal x = v)) =
      if sortVal g = v then
        g :: s.filter (fun x => decide (sortVal x = v))
      else s.filter (fun x => decide (sortVal x = v)) := by
  induction s with
  | nil =>
    by_cases hv : sortVal g = v <;> simp [insertGameDesc, List.filter_cons, hv]
  | cons hd t ih =>
    by_cases hle : sortVal hd ≤ sortVal g
    · rw [insertGameDesc, if_pos hle]
      by_cases hv : sortVal g = v <;> simp [List.filter_cons, hv]
    · rw [insertGameDesc, if_neg hle]
      have hgl : sortVal g < sortVal hd := lt_of_not_le hle
      by_cases hv : sortVal g = v
      · have hhd : ¬ sortVal hd = v := by
          rw [← hv]
          exact ne_of_gt hgl
        simp [List.filter_cons, hhd, ih, hv]
      · by_cases hhd : sortVal hd = v <;> simp [List.filter_cons, hhd, ih, hv]

/-- Claim C4 counterexample: two games with equal comparator values keep
their input order under `sortedGames`; with the larger canonical id first
in the input, the tie is not broken by ascending game id. -/
theorem sortedGames_tie_not_by_id :
    sortVal ⟨2, some 10⟩ = sortVal ⟨1, some 10⟩ ∧
    sortedGames [⟨2, some 10⟩, ⟨1, some 10⟩] = [⟨2, some 10⟩, ⟨1, some 10⟩] ∧
    (sortedGames [⟨2, some 10⟩, ⟨1, some 10⟩]).map SGame.igdb_id ≠ [1, 2] := by
  have hs : sortedGames [(⟨2, some 10⟩ : SGame), ⟨1, some 10⟩] =
      [⟨2, some 10⟩, ⟨1, some 10⟩] := by
    simp [sortedGames, insertGameDesc, sortVal]
  refine ⟨rfl, hs, ?_⟩
  rw [hs]
  simp

/-- Claim C4 as amended: `sortedGames` returns a permutation of its input
sorted in descending order of the comparator value
(`a[selectedMetric] || 0`), and equal-valued games keep their input order
(stable sort) rather than being reordered by ascending game id; the
function is deterministic on identical input. -/
theorem sortedGames_sorted_stable (l : List SGame) (v : ℚ) :
    (sortedGames l).Pairwise (fun a b => sortVal b ≤ sortVal a) ∧
    List.Perm l (sortedGames l) ∧
    (sortedGames l).filter (fun x => decide (sortVal x = v)) =
      l.filter (fun x => decide (sortVal x = v)) := by
  refine ⟨?_, ?_, ?_⟩
  · induction l with
    | nil => simp [sortedGames]
    | cons a t ih => exact pairwise_insertGameDesc a (sortedGames t) ih
  · induction l with
    | nil => rfl
    | cons a t ih =>
      exact List.Perm.trans (List.Perm.cons a ih)
        (insertGameDesc_perm a (sortedGames t)).symm
  · induction l with
    | nil => rfl
    | cons a t ih =>
      show (insertGameDesc a (sortedGames t)).filter _ = _
      rw [filter_insertGameDesc]
      by_cases hv : sortVal a = v <;> simp [List.filter_cons, hv, ih]

/-- Claim C5: for a game carrying both per-source metrics, the unified
combined metric is their sum — combined peak equals steam peak plus
twitch peak. -/
theorem unified_combined_is_sum (g : UnifiedGame) (x y u w : ℚ)
    (hc : g.all_time_peak_ccu = some x) (hv : g.all_time_peak_viewers = some y)
    (ha : g.avg_peak_ccu = some u) (hb : g.avg_peak_viewers = some w) :
    (unifiedDisplayInfo g).peakMetric = x + y ∧
    (unifiedDisplayInfo g).avgMetric = u + w := by
  simp [unifiedDisplayInfo, hc, hv, ha, hb]

theorem unified_combined_is_sum_witness :
    (unifiedDisplayInfo
      ⟨some 730, some 1, "CS2", some 900, some 1000, some 4000,
        some 5000⟩).peakMetric = 6000 ∧
    (unifiedDisplayInfo
      ⟨some 730, some 1, "CS2", some 900, some 1000, some 4000,
        some 5000⟩).avgMetric = 4900 := by
  have h := unified_combined_is_sum
    ⟨some 730, some 1, "CS2", some 900, some 1000, some 4000, some 5000⟩
    1000 5000 900 4000 rfl rfl rfl rfl
  constructor
  · rw [h.1]
    norm_num
  · rw [h.2]
    norm_num

/-- Claim C8: a game id with no corresponding GameMetadata entry still
flows through ranking display — its cover resolves to null and the tag
filter keeps it for every selected tag, instead of failing or dropping
the game. -/
theorem metadata_miss_keeps_game (gameMetadata : List GameMeta) (g : AggGame)
    (h : ∀ m ∈ gameMetadata, some m.igdb_id ≠ g.igdb_id) :
    getGameCover gameMetadata g = none ∧
    ∀ tag, keepGameForTag gameMetadata tag g = true := by
  have hf : metadataFor gameMetadata g = none := by
    unfold metadataFor
    rw [List.find?_eq_none]
    intro m hm
    simpa using h m hm
  constructor
  · unfold getGameCover
    rw [hf]
  · intro tag
    cases tag with
    | none => rfl
    | some tg =>
      unfold keepGameForTag
      rw [hf]

theorem metadata_miss_keeps_game_witness :
    getGameCover [⟨1, some "cover1", ["RPG"], ["Fantasy"]⟩] ⟨some 99⟩ = none ∧
    ∀ tag,
      keepGameForTag [⟨1, some "cover1", ["RPG"], ["Fantasy"]⟩] tag ⟨some 99⟩ =
        true :=
  metadata_miss_keeps_game [⟨1, some "cover1", ["RPG"], ["Fantasy"]⟩]
    ⟨some 99⟩ (by simp)

theorem lookupG_pushValue_self (g : Option Nat) (v : ℚ)
    (l : List (Option Nat × List ℚ)) :
    lookupG g (pushValue g v l) = some ((lookupG g l).getD [] ++ [v]) := by
  induction l with
  | nil => simp [pushValue, lookupG]
  | cons hd t ih =>
    obtain ⟨q, vs⟩ := hd
    by_cases hq : q = g
    · simp [pushValue, hq, lookupG]
    · simp [pushValue, hq, lookupG, ih]

theorem lookupG_pushValue_ne (g q : Option Nat) (v : ℚ)
    (l : List (Option Nat × List ℚ)) (h : q ≠ g) :
    lookupG g (pushValue q v l) = lookupG g l := by
  induction l with
  | nil => simp [pushValue, lookupG, h]
  | cons hd t ih =>
    obtain ⟨p, vs⟩ := hd
    by_cases hp : p = q
    · subst hp
      simp [pushValue, lookupG, h]
    · by_cases hg : p = g
      · subst hg
        simp [pushValue, hp, lookupG]
      · simp [pushValue, hp, lookupG, hg, ih]

theorem posValuesOf_cons (g : Option Nat) (r : TSRecord)
    (rest : List TSRecord) :
    posValuesOf g (r :: rest) =
      (if recordGameId r = g then posValue r else none).toList ++
        posValuesOf g rest := by
  unfold posValuesOf
  rw [List.filterMap_cons]
  rcases h : (if recordGameId r = g then posValue r else none) with _ | v
  · simp
  · simp

theorem lookupG_groupTS_aux (g : Option Nat) (data : List TSRecord) :
    ∀ acc, lookupG g (data.foldl addRecord acc) =
      match lookupG g acc with
      | some vs => some (vs ++ posValuesOf g data)
      | none =>
        if posValuesOf g data = [] then none else some (posValuesOf g data) := by
  induction data with
  | nil =>
    intro acc
    rcases hacc : lookupG g acc with _ | vs <;>
      simp [posValuesOf, hacc]
  | cons r rest ih =>
    intro acc
    rw [List.foldl_cons]
    rcases hpv : posValue r with _ | v
    · have hacc : addRecord acc r = acc := by
        unfold addRecord
        rw [hpv]
      have hpos : posValuesOf g (r :: rest) = posValuesOf g rest := by
        rw [posValuesOf_cons]
        by_cases hid : recordGameId r = g
        · simp [hid, hpv]
        · simp [hid]
      rw [hacc, ih acc, hpos]
    · by_cases hid : recordGameId r = g
      · have hacc : addRecord acc r = pushValue g v acc := by
          unfold addRecord
          rw [hpv, hid]
        have hpos : posValuesOf g (r :: rest) = v :: posValuesOf g rest := by
          rw [posValuesOf_cons]
          simp [hid, hpv]
        rw [hacc, ih (pushValue g v acc), lookupG_pushValue_self, hpos]
        rcases hl : lookupG g acc with _ | vs <;> simp [hl]
      · have hacc : addRecord acc r = pushValue (recordGameId r) v acc := by
          unfold addRecord
          rw [hpv]
        have hpos : posValuesOf g (r :: rest) = posValuesOf g rest := by
          rw [posValuesOf_cons]
          simp [hid]
        rw [hacc, ih _, lookupG_pushValue_ne g _ v acc hid, hpos]

theorem lookupAgg_map_avg (g : Option Nat)
    (l : List (Option Nat × List ℚ)) :
    lookupAgg g
      (l.map (fun e => (e.1, (e.2.sum / (e.2.length : ℚ), e.2.length)))) =
      (lookupG g l).map (fun vs => (vs.sum / (vs.length : ℚ), vs.length)) := by
  induction l with
  | nil => rfl
  | cons hd t ih =>
    obtain ⟨q, vs⟩ := hd
    by_cases hq : q = g <;> simp [lookupAgg, lookupG, hq, ih]

/-- Claim C9: `aggregateData` keeps, for each game, exactly its strictly
positive metric values — the aggregated entry is their mean with
`sample_count` their number, and a game none of whose records has a
strictly positive value is absent from the output. -/
theorem aggregate_positive_only (data : List TSRecord) (g : Option Nat) :
    lookupAgg g (aggregateData data) =
      if posValuesOf g data = [] then none
      else
        some ((posValuesOf g data).sum / ((posValuesOf g data).length : ℚ),
          (posValuesOf g data).length) := by
  unfold aggregateData groupTS
  rw [lookupAgg_map_avg, lookupG_groupTS_aux g data []]
  have hnil : lookupG g ([] : List (Option Nat × List ℚ)) = none := rfl
  rw [hnil]
  by_cases h : posValuesOf g data = [] <;> simp [h]

/-- In a list in which no two elements both satisfy `p`, at most one
element satisfies `p`. -/
theorem length_filter_le_one {α : Type} (l : List α) (p : α → Bool)
    (h : l.Pairwise (fun a b => ¬ (p a = true ∧ p b = true))) :
    (l.filter p).length ≤ 1 := by
  induction l with
  | nil => simp
  | cons a t ih =>
    rw [List.pairwise_cons] at h
    by_cases hpa : p a = true
    · have ht : t.filter p = [] := by
        by_contra hne
        obtain ⟨b, hb⟩ := List.exists_mem_of_ne_nil _ hne
        have hbmem := List.mem_filter.mp hb
        exact h.1 b hbmem.1 ⟨hpa, hbmem.2⟩
      simp [List.filter_cons, hpa, ht]
    · simp only [List.filter_cons, hpa, if_false]
      simpa [hpa] using ih h.2

/-- Claim C10: under the schema's constraints, each non-null
`steam_app_id` and each non-null `twitch_game_id` occurs in at most one
`game_metadata` row, and each `(platform_name, platform_uid)` pair
resolves to at most one canonical (`igdb_id`) game via
`game_external_ids`. -/
theorem platform_id_resolves_unique (t : List GMRow) (ext : List ExtIdRow)
    (hgm : gmConstraints t) (hext : extIdConstraints ext) :
    (∀ a : Int,
      (t.filter (fun r => decide (r.steam_app_id = some a))).length ≤ 1) ∧
    (∀ b : String,
      (t.filter (fun r => decide (r.twitch_game_id = some b))).length ≤ 1) ∧
    (∀ p u : String,
      ((ext.filter
        (fun r => decide (r.platform_name = p ∧ r.platform_uid = u))).map
          ExtIdRow.igdb_id).length ≤ 1) := by
  refine ⟨?_, ?_, ?_⟩
  · intro a
    apply length_filter_le_one
    apply List.Pairwise.imp ?_ hgm
    intro r1 r2 hc
    rintro ⟨h1, h2⟩
    rw [decide_eq_true_eq] at h1 h2
    have hs : r1.steam_app_id.isSome = true := by
      rw [h1]
      rfl
    exact hc.2.1 hs (h1.trans h2.symm)
  · intro b
    apply length_filter_le_one
    apply List.Pairwise.imp ?_ hgm
    intro r1 r2 hc
    rintro ⟨h1, h2⟩
    rw [decide_eq_true_eq] at h1 h2
    have hs : r1.twitch_game_id.isSome = true := by
      rw [h1]
      rfl
    exact hc.2.2 hs (h1.trans h2.symm)
  · intro p u
    rw [List.length_map]
    apply length_filter_le_one
    apply List.Pairwise.imp ?_ hext
    intro r1 r2 hc
    rintro ⟨h1, h2⟩
    rw [decide_eq_true_eq] at h1 h2
    exact hc.2 ⟨h1.1.trans h2.1.symm, h1.2.trans h2.2.symm⟩

theorem platform_id_resolves_unique_witness :
    ((([⟨1, "CS2", some 730, some "32399"⟩, ⟨2, "Dota", some 570, none⟩] :
        List GMRow).filter
      (fun r => decide (r.steam_app_id = some 730))).length ≤ 1) ∧
    ((([⟨10, 1, "steam", "730"⟩, ⟨11, 2, "steam", "570"⟩] :
        List ExtIdRow).filter
      (fun r => decide (r.platform_name = "steam" ∧ r.platform_uid = "730"))).map
        ExtIdRow.igdb_id).length ≤ 1 := by
  have h := platform_id_resolves_unique
    [⟨1, "CS2", some 730, some "32399"⟩, ⟨2, "Dota", some 570, none⟩]
    [⟨10, 1, "steam", "730"⟩, ⟨11, 2, "steam", "570"⟩]
    (by decide) (by decide)
  exact ⟨h.1 730, h.2.2 "steam" "730"⟩
